import Mathlib

/-!
Verification model of the multi-agent website-analysis system
(`multi_agent_system`).  The definitions below are shallow embeddings of
the Python sources:

* `src/multi_agent_system/core/cache_manager.py`
  (`CacheEntry`, `MemoryCacheBackend`),
* `src/multi_agent_system/core/orchestrator.py`
  (`RateLimiter`, the orchestrator-local `CacheManager`,
  `CrewOrchestrator.analyze_website`, `get_quick_analysis`,
  `_aggregate_results`),
* `src/multi_agent_system/api/main.py` (`_run_custom_analysis`).

Time is modelled as `Nat` (seconds).  Python dictionaries are modelled
as insertion-ordered association lists: assignment to an existing key
replaces the entry in place, assignment to a new key appends, `del`
removes the first (unique) occurrence, and iteration order is list
order — matching CPython's dict semantics.
-/

namespace MultiAgent

abbrev Time := Nat

/-! ## Cache entries (`cache_manager.py`, class `CacheEntry`) -/

/-- `CacheEntry` from `cache_manager.py` lines 21-44: value plus
creation, expiry and access metadata.  `__post_init__` sets
`last_accessed = created_at`, which the constructors below reproduce. -/
structure CacheEntry (α : Type) where
  value : α
  created_at : Time
  expires_at : Option Time
  access_count : Nat
  last_accessed : Time
deriving Repr, DecidableEq

/-- `CacheEntry.is_expired`: expired iff `expires_at` is set and the
current time is strictly past it (`datetime.utcnow() > expires_at`). -/
def CacheEntry.is_expired (e : CacheEntry α) (now : Time) : Bool :=
  match e.expires_at with
  | none => false
  | some t => decide (t < now)

/-- `CacheEntry.touch`: bump the access counter and stamp the access
time. -/
def CacheEntry.touch (e : CacheEntry α) (now : Time) : CacheEntry α :=
  { e with access_count := e.access_count + 1, last_accessed := now }

/-! ## Association-list primitives modelling a Python dict -/

/-- `key in d` for an insertion-ordered dict. -/
def dictHas (c : List (String × β)) (key : String) : Bool :=
  c.any (fun p => p.1 == key)

/-- `d.get(key)`: first matching entry's value. -/
def dictFind (c : List (String × β)) (key : String) : Option β :=
  (c.find? (fun p => p.1 == key)).map Prod.snd

/-- `d[key] = v`: replace the (first, unique) occurrence in place when
the key is present, append when it is new. -/
def dictInsert : List (String × β) → String → β → List (String × β)
  | [], key, v => [(key, v)]
  | p :: ps, key, v =>
      if p.1 == key then (key, v) :: ps else p :: dictInsert ps key v

/-- `del d[key]`: remove the (first) entry with the given key. -/
def dictErase (c : List (String × β)) (key : String) :
    List (String × β) :=
  c.eraseP (fun p => p.1 == key)

/-- Lookup in the entry store. -/
def lookupEntry (c : List (String × CacheEntry α)) (key : String) :
    Option (CacheEntry α) :=
  dictFind c key

/-- `self.cache[key] = entry`. -/
def insertEntry (c : List (String × CacheEntry α)) (key : String)
    (e : CacheEntry α) : List (String × CacheEntry α) :=
  dictInsert c key e

/-- `del self.cache[key]`. -/
def eraseEntry (c : List (String × CacheEntry α)) (key : String) :
    List (String × CacheEntry α) :=
  dictErase c key

/-! ## In-memory backend (`cache_manager.py`, class `MemoryCacheBackend`) -/

/-- State of `MemoryCacheBackend`: bounded insertion-ordered store. -/
structure MemoryCacheBackend (α : Type) where
  max_size : Nat
  cache : List (String × CacheEntry α)
deriving Repr, DecidableEq

/-- `min(self.cache.keys(), key=lambda k: cache[k].last_accessed)`:
the first entry (in dict iteration order) with minimal
`last_accessed`.  Python's `min` keeps the earliest element on ties,
which the strict `<` in the fold step `lruF` reproduces. -/
def lruF (b q : String × CacheEntry α) : String × CacheEntry α :=
  if q.2.last_accessed < b.2.last_accessed then q else b

/-- The entry selected by `_evict_lru`'s `min` call. -/
def lruPair : List (String × CacheEntry α) → Option (String × CacheEntry α)
  | [] => none
  | p :: ps => some (ps.foldl lruF p)

/-- `MemoryCacheBackend._evict_lru` (lines 187-195): delete the
least-recently-used entry; no-op on an empty cache. -/
def evictLRU (c : List (String × CacheEntry α)) :
    List (String × CacheEntry α) :=
  match lruPair c with
  | none => c
  | some p => eraseEntry c p.1

/-- `MemoryCacheBackend.get` (lines 95-110): miss on absent key;
present-but-expired entries are deleted lazily and reported as a miss;
otherwise the entry is touched and its value returned. -/
def MemoryCacheBackend.get (s : MemoryCacheBackend α) (key : String)
    (now : Time) : Option α × MemoryCacheBackend α :=
  match lookupEntry s.cache key with
  | none => (none, s)
  | some e =>
      if e.is_expired now then
        (none, { s with cache := eraseEntry s.cache key })
      else
        (some e.value, { s with cache := insertEntry s.cache key (e.touch now) })

/-- The fresh entry built by `MemoryCacheBackend.set`
(`access_count = 0`, `last_accessed = created_at = now`). -/
def mkEntry (v : α) (ttl : Option Nat) (now : Time) : CacheEntry α :=
  { value := v, created_at := now, expires_at := ttl.map (fun t => now + t),
    access_count := 0, last_accessed := now }

/-- `MemoryCacheBackend.set` (lines 112-138): build the entry, evict
the LRU entry when the store is at capacity and the key is new, then
assign `self.cache[key] = entry`. -/
def MemoryCacheBackend.set (s : MemoryCacheBackend α) (key : String) (v : α)
    (ttl : Option Nat) (now : Time) : MemoryCacheBackend α :=
  let entry := mkEntry v ttl now
  let c1 :=
    if s.max_size ≤ s.cache.length && !(dictHas s.cache key) then
      evictLRU s.cache
    else
      s.cache
  { s with cache := insertEntry c1 key entry }

/-- `MemoryCacheBackend.delete` (lines 140-146). -/
def MemoryCacheBackend.delete (s : MemoryCacheBackend α) (key : String) :
    MemoryCacheBackend α :=
  { s with cache := eraseEntry s.cache key }

/-- One client operation against the backend, stamped with the time at
which it is issued. -/
inductive CacheOp (α : Type) where
  | get (key : String) (now : Time)
  | set (key : String) (v : α) (ttl : Option Nat) (now : Time)
  | del (key : String)
deriving Repr, DecidableEq

/-- Apply one operation to the backend state. -/
def applyOp (s : MemoryCacheBackend α) : CacheOp α → MemoryCacheBackend α
  | .get key now => (s.get key now).2
  | .set key v ttl now => s.set key v ttl now
  | .del key => s.delete key

/-- Apply a sequence of operations left to right. -/
def applyOps (s : MemoryCacheBackend α) : List (CacheOp α) → MemoryCacheBackend α
  | [] => s
  | op :: ops => applyOps (applyOp s op) ops

/-- An empty backend with the given capacity. -/
def emptyMC (α : Type) (max_size : Nat) : MemoryCacheBackend α :=
  { max_size := max_size, cache := [] }

/-! ## Rate limiter (`orchestrator.py`, class `RateLimiter`) -/

/-- State of `RateLimiter`: per-key timestamp lists
(`defaultdict(list)`, so an absent key reads as `[]`). -/
structure RateLimiter where
  max_requests : Nat
  time_window : Nat
  requests : List (String × List Time)
deriving Repr, DecidableEq

/-- Read `self.requests[key]` (empty for an unseen key). -/
def RateLimiter.getKey (rl : RateLimiter) (key : String) : List Time :=
  (dictFind rl.requests key).getD []

/-- Write `self.requests[key] = ts` (replace in place or append). -/
def RateLimiter.setKey (rl : RateLimiter) (key : String) (ts : List Time) :
    RateLimiter :=
  { rl with requests := dictInsert rl.requests key ts }

/-- `RateLimiter.acquire` (lines 60-82): drop timestamps outside the
trailing window, then admit (recording `now`) iff fewer than
`max_requests` remain; a denied call records nothing. -/
def RateLimiter.acquire (rl : RateLimiter) (key : String) (now : Time) :
    Bool × RateLimiter :=
  let pruned := (rl.getKey key).filter
    (fun t => decide (now - t < rl.time_window))
  if pruned.length < rl.max_requests then
    (true, rl.setKey key (pruned ++ [now]))
  else
    (false, rl.setKey key pruned)

/-- Run a batch of `acquire` calls for one key at the given times,
collecting the returned booleans. -/
def acquireSeq (rl : RateLimiter) (key : String) :
    List Time → List Bool × RateLimiter
  | [] => ([], rl)
  | now :: rest =>
      let r := rl.acquire key now
      let rec2 := acquireSeq r.2 key rest
      (r.1 :: rec2.1, rec2.2)

/-- `RateLimiter.wait_for_slot` (lines 84-87) loops `acquire` until it
succeeds.  The model keeps only the effect of the final, successful
acquisition: prune the window and record the admission time.  (Denied
attempts leave the pruned list unchanged, so the loop's net state
transition is exactly this.) -/
def RateLimiter.wait_for_slot (rl : RateLimiter) (key : String) (now : Time) :
    RateLimiter :=
  let pruned := (rl.getKey key).filter
    (fun t => decide (now - t < rl.time_window))
  rl.setKey key (pruned ++ [now])

/-! ## Orchestrator-local cache (`orchestrator.py`, class `CacheManager`) -/

/-- `CacheManager._generate_key` (lines 103-106) hashes
`url + ":" + analysis_type` with md5.  The model keeps the pre-image
string itself: md5 is abstracted as an injective deterministic function
of that string, which is all the orchestrator relies on. -/
def genKey (url analysis_type : String) : String :=
  url ++ ":" ++ analysis_type

/-- State of the orchestrator's simple dict cache: key to
`(result, timestamp)`. -/
structure OrchCache (α : Type) where
  ttl : Nat
  cache : List (String × α × Time)
deriving Repr, DecidableEq

/-- `CacheManager.get` (lines 108-117): a present entry is returned
while `now - timestamp < ttl`, otherwise it is deleted and the call
misses. -/
def OrchCache.get (c : OrchCache α) (url analysis_type : String)
    (now : Time) : Option α × OrchCache α :=
  let key := genKey url analysis_type
  match dictFind c.cache key with
  | none => (none, c)
  | some p =>
      if now - p.2 < c.ttl then
        (some p.1, c)
      else
        (none, { c with cache := dictErase c.cache key })

/-- `CacheManager.set` (lines 119-122): `self.cache[key] = (result, now)`. -/
def OrchCache.set (c : OrchCache α) (url analysis_type : String) (v : α)
    (now : Time) : OrchCache α :=
  { c with cache := dictInsert c.cache (genKey url analysis_type) (v, now) }

/-! ## Agents, environment and records -/

/-- `PageData`: the scraped representation handed to every agent.  The
orchestration logic never inspects its fields, so a compact structure
suffices. -/
structure PageData where
  url : String
  title : String
  content : String
deriving Repr, DecidableEq

/-- One agent's returned dictionary.  `success` models the `'success'`
key every agent sets; `ctype` models
`result['classification']['type']` for classifier results (`none` for
the other agents, whose payload carries no type); `info` stands for the
remaining opaque payload or error text. -/
structure AgentResult where
  success : Bool
  ctype : Option String
  info : String
deriving Repr, DecidableEq

/-- Deterministic external collaborators (Scraper and the four agents).
`Except.error e` models the stage raising an exception on every retry
attempt: the environment is deterministic, so the three attempts of the
`tenacity` wrapper behave identically and retrying is absorbed into the
single call. -/
structure Env where
  scrape : String → Except String PageData
  classify : PageData → Except String AgentResult
  summarize : PageData → Option AgentResult → Except String AgentResult
  ux_review : PageData → Option AgentResult → Except String AgentResult
  design_advise : PageData → Option AgentResult → Except String AgentResult

/-- `asyncio.gather(..., return_exceptions=True)` followed by the
isinstance conversion: an exception becomes
`{'success': False, 'error': str(e)}`. -/
def toResult (r : Except String AgentResult) : AgentResult :=
  match r with
  | .ok a => a
  | .error e => { success := false, ctype := none, info := e }

/-- The gate of orchestrator line 228-230 and api line 559-560:
`classification and classification.get('success') and
classification.get('classification', {}).get('type') == 'landing_page'`. -/
def isLandingGate (c : Option AgentResult) : Bool :=
  match c with
  | some r => r.success && r.ctype == some "landing_page"
  | none => false

/-- The aggregated dictionary built by
`CrewOrchestrator._aggregate_results` (lines 431-473), flattened into
one structure (the `metadata` sub-dict is inlined as the last four
fields). -/
structure FullRecord where
  url : String
  website_data : PageData
  classification : Option AgentResult
  summary : Option AgentResult
  ux_review : Option AgentResult
  design_advice : Option AgentResult
  status : String
  timestamp : Time
  analysis_type : String
  success_rate : Rat
  agents_used : Nat
  successful_agents : Nat
  failed_agents : Nat
  is_landing_page : Bool
deriving Repr, DecidableEq

/-- `r is not None` for an agent slot. -/
def slotAttempted (r : Option AgentResult) : Bool :=
  r.isSome

/-- `r and r.get('success', False)`: agents return non-empty dicts, so
truthiness coincides with presence. -/
def slotSucceeded (r : Option AgentResult) : Bool :=
  match r with
  | some a => a.success
  | none => false

/-- `r and not r.get('success', False)`. -/
def slotFailed (r : Option AgentResult) : Bool :=
  match r with
  | some a => !a.success
  | none => false

/-- `CrewOrchestrator._aggregate_results` (lines 431-473): derive
`status` from the per-agent results, compute
`success_rate = successes / attempted` guarded by `any(all_results)`,
and record the metadata counters. -/
def aggregate_results (url : String) (pd : PageData)
    (c s u d : Option AgentResult) (now : Time) : FullRecord :=
  let all := [c, s, u, d]
  let successes := (all.filter slotSucceeded).length
  let attempted := (all.filter slotAttempted).length
  let status :=
    if successes = 0 then "failed"
    else if successes = attempted then "completed"
    else "partial"
  let rate : Rat :=
    if all.any slotAttempted then (successes : Rat) / (attempted : Rat) else 0
  { url := url, website_data := pd, classification := c, summary := s,
    ux_review := u, design_advice := d, status := status, timestamp := now,
    analysis_type := "full", success_rate := rate,
    agents_used := attempted, successful_agents := successes,
    failed_agents := (all.filter slotFailed).length,
    is_landing_page := isLandingGate c }

/-- The dictionary built inline by `get_quick_analysis`
(lines 323-331).  Note the literal `'status': 'completed'`. -/
structure QuickRecord where
  url : String
  website_data : PageData
  classification : AgentResult
  summary : AgentResult
  status : String
  timestamp : Time
  analysis_type : String
deriving Repr, DecidableEq

/-! ## The orchestrator pipelines -/

/-- Observable side effects of one orchestrator call, in order. -/
inductive Eff where
  | cacheHit
  | cacheMiss
  | rateAcquire
  | scrapeCall
  | agentCall (name : String)
  | cacheStore
deriving Repr, DecidableEq

/-- Mutable orchestrator state threaded through a call: the shared
result cache and the shared rate limiter. -/
structure OrchState where
  cache : OrchCache FullRecord
  rate : RateLimiter
deriving Repr, DecidableEq

/-- Steps 8-9 of `analyze_website`: cache the aggregated record when
`use_cache` is set, then return it. -/
def analyze_finish (url : String) (use_cache : Bool) (now : Time)
    (st2 : OrchState) (rec : FullRecord) (effs : List Eff) :
    Except String FullRecord × OrchState × List Eff :=
  if use_cache then
    (Except.ok rec,
      { st2 with cache := st2.cache.set url "full" rec now },
      effs ++ [Eff.cacheStore])
  else
    (Except.ok rec, st2, effs)

/-- Steps 2-9 of `CrewOrchestrator.analyze_website` (the part after the
cache check): rate-limiter wait, retry-wrapped scrape (an
`{'error': ...}` result aborts the run), classification awaited before
the gathered summary and UX-review calls (whose exceptions are
converted to failure results), the landing-page-gated design-advice
call (awaited directly, so its exception escapes to the outer handler
as a top-level error), aggregation, and the optional cache store. -/
def analyze_pipeline (env : Env) (url : String) (use_cache : Bool)
    (now : Time) (st1 : OrchState) (effs0 : List Eff) :
    Except String FullRecord × OrchState × List Eff :=
  let st2 := { st1 with rate := st1.rate.wait_for_slot "default" now }
  let effs1 := effs0 ++ [Eff.rateAcquire]
  match env.scrape url with
  | .error e =>
      (.error ("Failed to scrape website: " ++ e), st2,
        effs1 ++ [Eff.scrapeCall])
  | .ok pd =>
      let effs2 := effs1 ++ [Eff.scrapeCall]
      match env.classify pd with
      | .error e =>
          (.error ("Analysis failed: " ++ e), st2,
            effs2 ++ [Eff.agentCall "classifier"])
      | .ok cls =>
          let effs3 := effs2 ++ [Eff.agentCall "classifier",
            Eff.agentCall "summary", Eff.agentCall "ux_reviewer"]
          let sm := toResult (env.summarize pd (some cls))
          let ux := toResult (env.ux_review pd (some cls))
          if isLandingGate (some cls) then
            match env.design_advise pd (some cls) with
            | .error e =>
                (.error ("Analysis failed: " ++ e), st2,
                  effs3 ++ [Eff.agentCall "design_advisor"])
            | .ok da =>
                analyze_finish url use_cache now st2
                  (aggregate_results url pd (some cls) (some sm) (some ux)
                    (some da) now)
                  (effs3 ++ [Eff.agentCall "design_advisor"])
          else
            analyze_finish url use_cache now st2
              (aggregate_results url pd (some cls) (some sm) (some ux)
                none now)
              effs3

/-- `CrewOrchestrator.analyze_website` (lines 161-258), the full
pipeline: optional cache lookup with immediate return on a hit, then
`analyze_pipeline`.  The value is `(outcome, final state, effect
trace)`.  All `time.time()` readings within the one call collapse to
`now`. -/
def analyze_website (env : Env) (st : OrchState) (url : String)
    (use_cache : Bool) (now : Time) :
    Except String FullRecord × OrchState × List Eff :=
  if use_cache then
    match st.cache.get url "full" now with
    | (some r, cache1) =>
        (.ok r, { st with cache := cache1 }, [Eff.cacheHit])
    | (none, cache1) =>
        analyze_pipeline env url use_cache now { st with cache := cache1 }
          [Eff.cacheMiss]
  else
    analyze_pipeline env url use_cache now st []

/-- `CrewOrchestrator.get_quick_analysis` (lines 260-349) on the
un-cached path (`use_cache = False`; the claims under verification do
not touch quick-result caching): scrape, gather classifier and summary
with exception conversion, and build the inline record whose `status`
is the literal `'completed'`. -/
def get_quick_analysis (env : Env) (url : String) (now : Time) :
    Except String QuickRecord × List Eff :=
  match env.scrape url with
  | .error e =>
      (.error ("Failed to scrape website: " ++ e),
        [Eff.rateAcquire, Eff.scrapeCall])
  | .ok pd =>
      let cls := toResult (env.classify pd)
      let sm := toResult (env.summarize pd none)
      (.ok { url := url, website_data := pd, classification := cls,
             summary := sm, status := "completed", timestamp := now,
             analysis_type := "quick" },
        [Eff.rateAcquire, Eff.scrapeCall, Eff.agentCall "classifier",
         Eff.agentCall "summary"])

/-- The caller-selected agent set of `POST /analyze` (api
`AgentsConfig`). -/
structure AgentsConfig where
  classifier : Bool
  summary : Bool
  ux_reviewer : Bool
  design_advisor : Bool
deriving Repr, DecidableEq

/-- The gathered tail of `_run_custom_analysis` (api/main.py lines
544-585): the selected summary/UX-review tasks with exception
conversion, the design task gated on both the request flag and the
landing-page rule, and the shared `_aggregate_results` call. -/
def custom_tail (env : Env) (url : String) (cfg : AgentsConfig)
    (now : Time) (pd : PageData) (clsOpt : Option AgentResult)
    (effs0 : List Eff) : Except String FullRecord × List Eff :=
  let sres := if cfg.summary then
      some (toResult (env.summarize pd clsOpt)) else none
  let effs1 := effs0 ++
    (if cfg.summary then [Eff.agentCall "summary"] else [])
  let ures := if cfg.ux_reviewer then
      some (toResult (env.ux_review pd clsOpt)) else none
  let effs2 := effs1 ++
    (if cfg.ux_reviewer then [Eff.agentCall "ux_reviewer"] else [])
  let gate := cfg.design_advisor && isLandingGate clsOpt
  let dres := if gate then
      some (toResult (env.design_advise pd clsOpt)) else none
  let effs3 := effs2 ++
    (if gate then [Eff.agentCall "design_advisor"] else [])
  (Except.ok (aggregate_results url pd clsOpt sres ures dres now), effs3)

/-- `_run_custom_analysis` (api/main.py lines 529-588): scrape (no
cache, no rate limit on this path), classifier awaited directly when
requested (so its exception aborts the run), then `custom_tail`. -/
def run_custom_analysis (env : Env) (url : String) (cfg : AgentsConfig)
    (now : Time) : Except String FullRecord × List Eff :=
  match env.scrape url with
  | .error e =>
      (.error ("Failed to scrape website: " ++ e), [Eff.scrapeCall])
  | .ok pd =>
      if cfg.classifier then
        match env.classify pd with
        | .error e =>
            (.error ("Custom analysis failed: " ++ e),
              [Eff.scrapeCall, Eff.agentCall "classifier"])
        | .ok cls =>
            custom_tail env url cfg now pd (some cls)
              [Eff.scrapeCall, Eff.agentCall "classifier"]
      else
        custom_tail env url cfg now pd none [Eff.scrapeCall]

/-! ## Stage-ordering semantics of the full pipeline

`analyze_website` awaits the classifier call (line 202) before creating
the summary and UX-review tasks (lines 205-210), gathers those two
concurrently (line 213), and only then runs the conditional
design-advice stage (lines 226-234).  The event model below makes the
scheduler's freedom explicit: the two gathered tasks may interleave in
any order, chosen by a schedule of booleans (`true` picks the next
summary event, `false` the next UX-review event). -/

/-- Start/completion events of the four agent stages. -/
inductive PEv where
  | clsStart | clsDone
  | sumStart | sumDone
  | uxStart | uxDone
  | desStart | desDone
deriving Repr, DecidableEq

/-- All interleavings of two event streams, driven by a schedule; when
the schedule is exhausted the remaining events are flushed in order. -/
def interleave : List Bool → List PEv → List PEv → List PEv
  | [], xs, ys => xs ++ ys
  | _ :: _, [], ys => ys
  | _ :: _, x :: xs, [] => x :: xs
  | b :: bs, x :: xs, y :: ys =>
      if b then x :: interleave bs xs (y :: ys)
      else y :: interleave bs (x :: xs) ys

/-- Event trace of one full-pipeline run: the classification stage runs
to completion, then the gathered summary/UX-review pair interleaves
under the scheduler's choice, then (iff the landing-page gate holds)
the design-advice stage runs. -/
def fullPipelineEvents (gate : Bool) (sched : List Bool) : List PEv :=
  [PEv.clsStart, PEv.clsDone] ++
    interleave sched [PEv.sumStart, PEv.sumDone] [PEv.uxStart, PEv.uxDone] ++
    (if gate then [PEv.desStart, PEv.desDone] else [])

/-- `a` occurs strictly before `b` in the trace. -/
def precedes (a b : PEv) (tr : List PEv) : Prop :=
  ∃ i j, i < j ∧ tr.get? i = some a ∧ tr.get? j = some b

/-! ## Concrete fixtures used by witnesses and counterexamples -/

/-- A fixed scraped page. -/
def pdX : PageData :=
  { url := "https://example.com", title := "T", content := "body" }

/-- A successful landing-page classification. -/
def clsLanding : AgentResult :=
  { success := true, ctype := some "landing_page", info := "ok" }

/-- A successful blog classification (non-landing-page). -/
def clsBlog : AgentResult :=
  { success := true, ctype := some "blog", info := "ok" }

/-- A generic successful agent result. -/
def agentOK : AgentResult := { success := true, ctype := none, info := "ok" }

/-- A generic failed agent result. -/
def agentFail : AgentResult :=
  { success := false, ctype := none, info := "bad" }

/-- Environment: scrape succeeds, classification says `blog`, the
summary agent raises on every attempt, UX review and design advice
succeed. -/
def envBlog : Env :=
  { scrape := fun _ => .ok pdX,
    classify := fun _ => .ok clsBlog,
    summarize := fun _ _ => .error "summary down",
    ux_review := fun _ _ => .ok agentOK,
    design_advise := fun _ _ => .ok agentOK }

/-- Environment: scrape succeeds, classification says `blog`, the
summary agent returns a failure result, UX review succeeds. -/
def envPartial : Env :=
  { scrape := fun _ => .ok pdX,
    classify := fun _ => .ok clsBlog,
    summarize := fun _ _ => .ok agentFail,
    ux_review := fun _ _ => .ok agentOK,
    design_advise := fun _ _ => .ok agentOK }

/-- Environment: scrape succeeds, classification says `landing_page`,
all agents succeed. -/
def envLanding : Env :=
  { scrape := fun _ => .ok pdX,
    classify := fun _ => .ok clsLanding,
    summarize := fun _ _ => .ok agentOK,
    ux_review := fun _ _ => .ok agentOK,
    design_advise := fun _ _ => .ok agentOK }

/-- Environment: the scraper reports a fetch error on every attempt. -/
def envScrapeFail : Env :=
  { scrape := fun _ => .error "timeout",
    classify := fun _ => .ok clsBlog,
    summarize := fun _ _ => .ok agentOK,
    ux_review := fun _ _ => .ok agentOK,
    design_advise := fun _ _ => .ok agentOK }

/-- Environment: scrape succeeds but the classifier and the summary
agent raise on every attempt. -/
def envAgentsDown : Env :=
  { scrape := fun _ => .ok pdX,
    classify := fun _ => .error "classifier down",
    summarize := fun _ _ => .error "summary down",
    ux_review := fun _ _ => .error "ux down",
    design_advise := fun _ _ => .error "design down" }

/-- An orchestrator with an empty cache (default TTL 3600) and an idle
rate limiter (`rate_limit_per_minute = 60`). -/
def freshState : OrchState :=
  { cache := { ttl := 3600, cache := [] },
    rate := { max_requests := 60, time_window := 60, requests := [] } }

/-- Custom request selecting only the classifier, with the design
advisor switched off. -/
def cfgNoDesign : AgentsConfig :=
  { classifier := true, summary := false, ux_reviewer := false,
    design_advisor := false }

/-- Custom request selecting no agent at all. -/
def cfgNone : AgentsConfig :=
  { classifier := false, summary := false, ux_reviewer := false,
    design_advisor := false }

/-- The LRU scenario of the spec: capacity 2; set `a`, set `b`,
read `a`, set `c` (at increasing times). -/
def c7ops : List (CacheOp Nat) :=
  [CacheOp.set "a" 10 none 0, CacheOp.set "b" 20 none 1,
   CacheOp.get "a" 2, CacheOp.set "c" 30 none 3]

/-- A limiter of capacity 2 per minute already holding two timestamps
for key `k`. -/
def rlW : RateLimiter :=
  { max_requests := 2, time_window := 60, requests := [("k", [0, 10])] }

/-- A full single-slot backend holding key `a`. -/
def mcFullA : MemoryCacheBackend Nat :=
  { max_size := 1, cache := [("a", mkEntry 5 none 0)] }

/-- An entry whose TTL ran out at time 10. -/
def entExpired : CacheEntry Nat :=
  { value := 1, created_at := 0, expires_at := some 10,
    access_count := 0, last_accessed := 0 }

/-- A backend holding only the expired entry `a`. -/
def mcExpired : MemoryCacheBackend Nat :=
  { max_size := 10, cache := [("a", entExpired)] }

/-- A full single-slot backend, target of an in-place overwrite. -/
def mcOneA : MemoryCacheBackend Nat :=
  { max_size := 1, cache := [("a", mkEntry 1 none 0)] }

/-! # Theorems -/

/-! ## Dict-primitive lemmas -/

theorem dictFind_eq_none_iff (c : List (String × β)) (key : String) :
    dictFind c key = none ↔ dictHas c key = false := by
  simp [dictFind, dictHas, Option.map_eq_none', List.find?_eq_none,
    List.any_eq_true]

theorem dictHas_of_find_eq_some {c : List (String × β)} {key : String}
    {v : β} (h : dictFind c key = some v) : dictHas c key = true := by
  cases hb : dictHas c key with
  | false => rw [(dictFind_eq_none_iff c key).2 hb] at h; cases h
  | true => rfl

theorem dictFind_insert_self (c : List (String × β)) (key : String)
    (v : β) : dictFind (dictInsert c key v) key = some v := by
  induction c with
  | nil =>
      rw [dictInsert, dictFind, List.find?_cons_of_pos _ (by simp)]
      rfl
  | cons p ps ih =>
      cases hp : (p.1 == key) with
      | true =>
          rw [dictInsert, if_pos hp, dictFind,
            List.find?_cons_of_pos _ (by simp)]
          rfl
      | false =>
          rw [dictInsert, if_neg (by simp [hp]), dictFind,
            List.find?_cons_of_neg _ (by simp [hp])]
          exact ih

theorem dictFind_erase_self (c : List (String × β)) (key : String)
    (hnd : (c.map Prod.fst).Nodup) :
    dictFind (dictErase c key) key = none := by
  induction c with
  | nil => rfl
  | cons p ps ih =>
      have hp1 : p.1 ∉ ps.map Prod.fst :=
        (List.nodup_cons.1 hnd).1
      have hps : (ps.map Prod.fst).Nodup := (List.nodup_cons.1 hnd).2
      cases hp : (p.1 == key) with
      | true =>
          have hkey : p.1 = key := eq_of_beq hp
          rw [dictErase,
            @List.eraseP_cons_of_pos _ p ps (fun q => q.1 == key) hp,
            dictFind, List.find?_eq_none.2 ?_, Option.map_none']
          intro q hq hbq
          apply absurd _ hp1
          have hmem : q.1 ∈ ps.map Prod.fst :=
            List.mem_map_of_mem Prod.fst hq
          rwa [eq_of_beq hbq, ← hkey] at hmem
      | false =>
          rw [dictErase,
            @List.eraseP_cons_of_neg _ p ps (fun q => q.1 == key)
              (by simp [hp]),
            dictFind, List.find?_cons_of_neg _ (by simp [hp])]
          exact ih hps

theorem length_dictInsert (c : List (String × β)) (key : String) (v : β) :
    (dictInsert c key v).length =
      if dictHas c key then c.length else c.length + 1 := by
  induction c with
  | nil => rfl
  | cons p ps ih =>
      cases hp : (p.1 == key) with
      | true =>
          rw [dictInsert, if_pos hp, if_pos (by simp [dictHas, hp])]
          rfl
      | false =>
          have hcond : dictHas (p :: ps) key = dictHas ps key := by
            simp [dictHas, hp]
          rw [dictInsert, if_neg (by simp [hp]), List.length_cons, ih, hcond]
          by_cases h2 : dictHas ps key <;> simp [h2]

theorem map_fst_dictInsert_of_has {c : List (String × β)} {key : String}
    (v : β) (h : dictHas c key = true) :
    (dictInsert c key v).map Prod.fst = c.map Prod.fst := by
  induction c with
  | nil => cases (by simp [dictHas] at h : False)
  | cons p ps ih =>
      cases hp : (p.1 == key) with
      | true =>
          rw [dictInsert, if_pos hp, List.map_cons, List.map_cons,
            eq_of_beq hp]
      | false =>
          have h2 : dictHas ps key = true := by
            simpa [dictHas, hp] using h
          rw [dictInsert, if_neg (by simp [hp]), List.map_cons,
            List.map_cons, ih h2]

theorem dictHas_erase_of_not_has {c : List (String × β)} {key k : String}
    (h : dictHas c key = false) : dictHas (dictErase c k) key = false := by
  cases hb : dictHas (dictErase c k) key with
  | false => rfl
  | true =>
      exfalso
      rcases List.any_eq_true.1 hb with ⟨p, hp, hpk⟩
      have : dictHas c key = true :=
        List.any_eq_true.2 ⟨p, (List.eraseP_sublist c).mem hp, hpk⟩
      rw [h] at this
      cases this

theorem length_dictErase_le (c : List (String × β)) (key : String) :
    (dictErase c key).length ≤ c.length :=
  (List.eraseP_sublist c).length_le

theorem dictHas_insert_of_not_has {c : List (String × β)} {key : String}
    (v : β) (h : dictHas c key = false) :
    dictInsert c key v = c ++ [(key, v)] := by
  induction c with
  | nil => rfl
  | cons p ps ih =>
      have hp : (p.1 == key) = false := by
        cases hb : (p.1 == key) with
        | false => rfl
        | true => rw [dictHas, List.any_cons, hb] at h; cases h
      have h2 : dictHas ps key = false := by
        simpa [dictHas, hp] using h
      rw [dictInsert, if_neg (by simp [hp]), ih h2, List.cons_append]

/-! ## LRU-selection lemmas -/

theorem lruF_last_le_left {α : Type} (b q : String × CacheEntry α) :
    (lruF b q).2.last_accessed ≤ b.2.last_accessed := by
  rw [lruF]
  by_cases hc : q.2.last_accessed < b.2.last_accessed
  · rw [if_pos hc]
    exact Nat.le_of_lt hc
  · rw [if_neg hc]

theorem lruF_last_le_right {α : Type} (b q : String × CacheEntry α) :
    (lruF b q).2.last_accessed ≤ q.2.last_accessed := by
  rw [lruF]
  by_cases hc : q.2.last_accessed < b.2.last_accessed
  · rw [if_pos hc]
  · rw [if_neg hc]
    exact Nat.le_of_not_lt hc

theorem foldl_lruF_spec {α : Type} (ps : List (String × CacheEntry α))
    (b : String × CacheEntry α) :
    (ps.foldl lruF b = b ∨ ps.foldl lruF b ∈ ps)
    ∧ (ps.foldl lruF b).2.last_accessed ≤ b.2.last_accessed
    ∧ ∀ q ∈ ps, (ps.foldl lruF b).2.last_accessed ≤ q.2.last_accessed := by
  induction ps generalizing b with
  | nil =>
      exact ⟨Or.inl rfl, le_refl _, fun q hq => absurd hq (by simp)⟩
  | cons r rs ih =>
      rcases ih (lruF b r) with ⟨hmem, hle, hall⟩
      rw [List.foldl_cons]
      refine ⟨?_, ?_, ?_⟩
      · rcases hmem with h | h
        · rw [h, lruF]
          by_cases hc : r.2.last_accessed < b.2.last_accessed
          · rw [if_pos hc]
            exact Or.inr (List.mem_cons_self r rs)
          · rw [if_neg hc]
            exact Or.inl rfl
        · exact Or.inr (List.mem_cons_of_mem r h)
      · exact le_trans hle (lruF_last_le_left b r)
      · intro q hq
        rcases List.mem_cons.1 hq with h | h
        · rw [h]
          exact le_trans hle (lruF_last_le_right b r)
        · exact hall q h

theorem lruPair_spec {α : Type} (c : List (String × CacheEntry α))
    (p : String × CacheEntry α) (h : lruPair c = some p) :
    p ∈ c ∧ ∀ q ∈ c, p.2.last_accessed ≤ q.2.last_accessed := by
  cases c with
  | nil => cases h
  | cons r rs =>
      rw [lruPair] at h
      injection h with h
      subst h
      rcases foldl_lruF_spec rs r with ⟨hmem, hle, hall⟩
      constructor
      · rcases hmem with h | h
        · rw [h]; exact List.mem_cons_self r rs
        · exact List.mem_cons_of_mem r h
      · intro q hq
        rcases List.mem_cons.1 hq with h | h
        · rw [h]; exact hle
        · exact hall q h

theorem evictLRU_spec {α : Type} (c : List (String × CacheEntry α))
    (hne : c ≠ []) :
    ∃ k e, (k, e) ∈ c ∧
      (∀ q ∈ c, e.last_accessed ≤ q.2.last_accessed) ∧
      evictLRU c = dictErase c k := by
  cases hlp : lruPair c with
  | none =>
      cases c with
      | nil => exact absurd rfl hne
      | cons r rs => rw [lruPair] at hlp; cases hlp
  | some p =>
      rcases lruPair_spec c p hlp with ⟨hmem, hmin⟩
      refine ⟨p.1, p.2, by simpa using hmem, hmin, ?_⟩
      unfold evictLRU
      rw [hlp]
      rfl

theorem length_evictLRU {α : Type} (c : List (String × CacheEntry α))
    (hne : c ≠ []) : (evictLRU c).length = c.length - 1 := by
  rcases evictLRU_spec c hne with ⟨k, e, hmem, -, heq⟩
  rw [heq, dictErase]
  exact List.length_eraseP_of_mem hmem (by simp)

theorem dictHas_evictLRU_of_not_has {α : Type}
    {c : List (String × CacheEntry α)} {key : String}
    (h : dictHas c key = false) : dictHas (evictLRU c) key = false := by
  cases hlp : lruPair c with
  | none => unfold evictLRU; rw [hlp]; exact h
  | some p =>
      unfold evictLRU
      rw [hlp]
      exact dictHas_erase_of_not_has h

/-! ## Rate-limiter lemmas -/

theorem getKey_setKey (rl : RateLimiter) (key : String) (ts : List Time) :
    (rl.setKey key ts).getKey key = ts := by
  rw [RateLimiter.setKey, RateLimiter.getKey]
  show (dictFind (dictInsert rl.requests key ts) key).getD [] = ts
  rw [dictFind_insert_self]
  rfl

/-! ## Claim theorems for the rate limiter and the memory backend -/

/-- **C6** — `RateLimiter.acquire` admits a call iff fewer than
`max_requests` of the key's recorded timestamps lie within the trailing
window, records `now` exactly when it admits, and records nothing when
it denies; concretely, with `max_requests = 5` and `time_window = 60`,
five calls succeed, a sixth within the window fails, and a call issued
once more than 60 seconds have passed succeeds again. -/
theorem rate_limiter_sliding_window :
    (∀ (rl : RateLimiter) (key : String) (now : Time),
       ((rl.acquire key now).1 = true ↔
          (rl.getKey key).countP
              (fun t => decide (now - t < rl.time_window)) <
            rl.max_requests)
       ∧ ((rl.acquire key now).1 = true →
            ((rl.acquire key now).2).getKey key =
              (rl.getKey key).filter
                  (fun t => decide (now - t < rl.time_window)) ++ [now])
       ∧ ((rl.acquire key now).1 = false →
            ((rl.acquire key now).2).getKey key =
              (rl.getKey key).filter
                (fun t => decide (now - t < rl.time_window))))
  ∧ (acquireSeq { max_requests := 5, time_window := 60, requests := [] }
       "k" [0, 0, 0, 0, 0, 0, 61]).1 =
      [true, true, true, true, true, false, true] := by
  constructor
  · intro rl key now
    rw [List.countP_eq_length_filter]
    by_cases hc :
        ((rl.getKey key).filter
          (fun t => decide (now - t < rl.time_window))).length <
          rl.max_requests
    · rw [RateLimiter.acquire]
      simp only [if_pos hc]
      refine ⟨by simpa using hc, fun _ => getKey_setKey rl key _, ?_⟩
      intro h
      cases h
    · rw [RateLimiter.acquire]
      simp only [if_neg hc]
      refine ⟨by simpa using hc, ?_, fun _ => getKey_setKey rl key _⟩
      intro h
      cases h
  · decide

/-- **C7** — at capacity (`max_size ≤ len`, sane capacity `1 ≤
max_size`) a `set` with a new key first evicts exactly one entry whose
`last_accessed` is minimal over the whole store (both `get` and `set`
stamp `last_accessed`), then appends the new entry; concretely, with
capacity 2 and the op sequence set `a`, set `b`, get `a`, set `c`, the
entry `b` is evicted and `a`, `c` remain. -/
theorem mem_backend_set_evicts_lru :
    (∀ (α : Type) (s : MemoryCacheBackend α) (key : String) (v : α)
        (ttl : Option Nat) (now : Time),
       1 ≤ s.max_size →
       s.max_size ≤ s.cache.length →
       dictHas s.cache key = false →
       ∃ k e, (k, e) ∈ s.cache ∧
         (∀ q ∈ s.cache, e.last_accessed ≤ q.2.last_accessed) ∧
         (s.set key v ttl now).cache =
           dictErase s.cache k ++ [(key, mkEntry v ttl now)])
  ∧ (applyOps (emptyMC Nat 2) c7ops).cache.map Prod.fst = ["a", "c"] := by
  constructor
  · intro α s key v ttl now hcap hfull hnew
    have hne : s.cache ≠ [] := by
      intro h
      rw [h] at hfull
      simp at hfull
      omega
    rcases evictLRU_spec s.cache hne with ⟨k, e, hmem, hmin, heq⟩
    refine ⟨k, e, hmem, hmin, ?_⟩
    have hcond :
        (s.max_size ≤ s.cache.length && !(dictHas s.cache key)) = true := by
      rw [hnew]
      simp [hfull]
    rw [MemoryCacheBackend.set]
    simp only [hcond, if_true]
    have hnew2 : dictHas (evictLRU s.cache) key = false :=
      dictHas_evictLRU_of_not_has hnew
    show insertEntry (evictLRU s.cache) key (mkEntry v ttl now) = _
    rw [insertEntry, dictHas_insert_of_not_has _ hnew2, heq]
  · decide

/-- **C8** — `MemoryCacheBackend.get` returns the stored value iff an
entry for the key is present and unexpired; a present-but-expired entry
is purged lazily on the read (the read misses, the entry is gone, and a
repeated read misses again).  The hypothesis that stored keys are
distinct is the Python-dict invariant of the modelled store. -/
theorem mem_backend_get_lazy_expiry {α : Type} (s : MemoryCacheBackend α)
    (key : String) (now : Time)
    (hnd : (s.cache.map Prod.fst).Nodup) :
    (∀ v : α, (s.get key now).1 = some v ↔
      ∃ e, lookupEntry s.cache key = some e ∧
        e.is_expired now = false ∧ e.value = v)
  ∧ ∀ e, lookupEntry s.cache key = some e → e.is_expired now = true →
      (s.get key now).1 = none ∧
      lookupEntry ((s.get key now).2).cache key = none ∧
      (((s.get key now).2).get key now).1 = none := by
  cases hl : lookupEntry s.cache key with
  | none =>
      have hget : s.get key now = (none, s) := by
        rw [MemoryCacheBackend.get, hl]
      constructor
      · intro v
        rw [hget]
        simp
      · intro e he
        cases he
  | some e =>
      cases hexp : e.is_expired now with
      | true =>
          have hget : s.get key now =
              (none, { s with cache := eraseEntry s.cache key }) := by
            rw [MemoryCacheBackend.get, hl]
            exact if_pos hexp
          have herase :
              lookupEntry (eraseEntry s.cache key) key = none :=
            dictFind_erase_self s.cache key hnd
          constructor
          · intro v
            rw [hget]
            constructor
            · intro h; cases h
            · rintro ⟨e2, he2, hexp2, -⟩
              injection he2 with he2
              rw [← he2, hexp] at hexp2
              cases hexp2
          · intro e2 he2 _
            rw [hget]
            refine ⟨rfl, herase, ?_⟩
            rw [MemoryCacheBackend.get, herase]
      | false =>
          have hget : s.get key now =
              (some e.value,
                { s with cache := insertEntry s.cache key (e.touch now) }) := by
            rw [MemoryCacheBackend.get, hl]
            exact if_neg (by simp [hexp])
          constructor
          · intro v
            rw [hget]
            constructor
            · intro h
              injection h with h
              exact ⟨e, rfl, hexp, h⟩
            · rintro ⟨e2, he2, -, hv⟩
              injection he2 with he2
              rw [← hv, he2]
          · intro e2 he2 hexp2
            injection he2 with he2
            rw [← he2, hexp] at hexp2
            cases hexp2

/-- **C10** — a `set` on an already-present key overwrites that entry
in place: the stored key sequence is unchanged (so nothing is evicted,
even at capacity) and the entry now holds the new value; and starting
from an empty backend with capacity `max_size ≥ 1`, no sequence of
get/set/delete operations ever pushes the number of stored entries past
`max_size`. -/
theorem mem_backend_overwrite_in_place_and_bounded :
    (∀ (α : Type) (s : MemoryCacheBackend α) (key : String) (v : α)
        (ttl : Option Nat) (now : Time) (e0 : CacheEntry α),
       lookupEntry s.cache key = some e0 →
       ((s.set key v ttl now).cache.map Prod.fst = s.cache.map Prod.fst
        ∧ lookupEntry (s.set key v ttl now).cache key =
            some (mkEntry v ttl now)))
  ∧ (∀ (α : Type) (m : Nat) (ops : List (CacheOp α)), 1 ≤ m →
       (applyOps (emptyMC α m) ops).cache.length ≤ m) := by
  constructor
  · intro α s key v ttl now e0 h
    have hhas : dictHas s.cache key = true := dictHas_of_find_eq_some h
    have hcond :
        (s.max_size ≤ s.cache.length && !(dictHas s.cache key)) = false := by
      rw [hhas]
      simp
    rw [MemoryCacheBackend.set]
    simp only [hcond, if_false]
    exact ⟨map_fst_dictInsert_of_has _ hhas, dictFind_insert_self _ _ _⟩
  · intro α m ops hm
    have step : ∀ (s : MemoryCacheBackend α) (op : CacheOp α),
        s.max_size = m → s.cache.length ≤ m →
        (applyOp s op).max_size = m ∧ (applyOp s op).cache.length ≤ m := by
      intro s op hmax hlen
      cases op with
      | get key now =>
          cases hl : lookupEntry s.cache key with
          | none =>
              have hget : s.get key now = (none, s) := by
                rw [MemoryCacheBackend.get, hl]
              rw [applyOp, hget]
              exact ⟨hmax, hlen⟩
          | some e =>
              cases hexp : e.is_expired now with
              | true =>
                  have hget : s.get key now =
                      (none, { s with cache := eraseEntry s.cache key }) := by
                    rw [MemoryCacheBackend.get, hl]
                    exact if_pos hexp
                  rw [applyOp, hget]
                  exact ⟨hmax, le_trans (length_dictErase_le _ _) hlen⟩
              | false =>
                  have hget : s.get key now =
                      (some e.value,
                        { s with cache :=
                            insertEntry s.cache key (e.touch now) }) := by
                    rw [MemoryCacheBackend.get, hl]
                    exact if_neg (by rw [hexp]; exact Bool.false_ne_true)
                  rw [applyOp, hget]
                  refine ⟨hmax, ?_⟩
                  show (insertEntry s.cache key (e.touch now)).length ≤ m
                  rw [insertEntry, length_dictInsert,
                    if_pos (dictHas_of_find_eq_some hl)]
                  exact hlen
      | set key v ttl now =>
          rw [applyOp, MemoryCacheBackend.set]
          by_cases hhas : dictHas s.cache key = true
          · have hc1 :
                (if (s.max_size ≤ s.cache.length &&
                    !(dictHas s.cache key)) = true
                  then evictLRU s.cache else s.cache) = s.cache := by
              rw [hhas]
              exact if_neg (by simp)
            rw [hc1]
            refine ⟨hmax, ?_⟩
            show (insertEntry s.cache key (mkEntry v ttl now)).length ≤ m
            rw [insertEntry, length_dictInsert, if_pos hhas]
            exact hlen
          · have hhas2 : dictHas s.cache key = false :=
              Bool.eq_false_iff.2 hhas
            by_cases hcap : s.max_size ≤ s.cache.length
            · have hc1 :
                  (if (s.max_size ≤ s.cache.length &&
                      !(dictHas s.cache key)) = true
                    then evictLRU s.cache else s.cache) = evictLRU s.cache := by
                rw [hhas2]
                exact if_pos (by simp [hcap])
              rw [hc1]
              have hne : s.cache ≠ [] := by
                intro h
                rw [h] at hcap
                simp at hcap
                omega
              have hlen2 : (evictLRU s.cache).length = s.cache.length - 1 :=
                length_evictLRU s.cache hne
              have hnew2 : dictHas (evictLRU s.cache) key = false :=
                dictHas_evictLRU_of_not_has hhas2
              refine ⟨hmax, ?_⟩
              show (insertEntry (evictLRU s.cache) key
                (mkEntry v ttl now)).length ≤ m
              rw [insertEntry, length_dictInsert,
                if_neg (by rw [hnew2]; exact Bool.false_ne_true), hlen2]
              rw [hmax] at hcap
              omega
            · have hc1 :
                  (if (s.max_size ≤ s.cache.length &&
                      !(dictHas s.cache key)) = true
                    then evictLRU s.cache else s.cache) = s.cache := by
                exact if_neg (by simp [hcap])
              rw [hc1]
              refine ⟨hmax, ?_⟩
              show (insertEntry s.cache key (mkEntry v ttl now)).length ≤ m
              rw [insertEntry, length_dictInsert,
                if_neg (by rw [hhas2]; exact Bool.false_ne_true)]
              rw [hmax] at hcap
              omega
      | del key =>
          rw [applyOp, MemoryCacheBackend.delete]
          exact ⟨hmax, le_trans (length_dictErase_le _ _) hlen⟩
    have main : ∀ (ops2 : List (CacheOp α)) (s : MemoryCacheBackend α),
        s.max_size = m → s.cache.length ≤ m →
        (applyOps s ops2).cache.length ≤ m := by
      intro ops2
      induction ops2 with
      | nil => intro s _ h2; exact h2
      | cons op rest ih =>
          intro s h1 h2
          rcases step s op h1 h2 with ⟨ha, hb⟩
          rw [applyOps]
          exact ih _ ha hb
    exact main ops (emptyMC α m) rfl (by rw [emptyMC]; simp)

/-- Witness for `rate_limiter_sliding_window`: a limiter holding two
in-window timestamps with `max_requests = 2` denies, and the denial
leaves the (fully in-window) list unchanged. -/
theorem rate_limiter_sliding_window_witness :
    ((rlW.acquire "k" 30).2).getKey "k" = [0, 10] := by
  have h := (rate_limiter_sliding_window.1 rlW "k" 30).2.2 (by decide)
  rw [h]
  decide

/-- Witness for `mem_backend_set_evicts_lru`: a full single-slot cache
accepts a new key by evicting its minimal-access entry. -/
theorem mem_backend_set_evicts_lru_witness :
    ∃ k e, (k, e) ∈ mcFullA.cache ∧
      (∀ q ∈ mcFullA.cache, e.last_accessed ≤ q.2.last_accessed) ∧
      (mcFullA.set "b" 7 none 3).cache =
        dictErase mcFullA.cache k ++ [("b", mkEntry 7 none 3)] :=
  mem_backend_set_evicts_lru.1 Nat mcFullA "b" 7 none 3
    (by decide) (by decide) (by decide)

/-- Witness for `mem_backend_get_lazy_expiry`: reading an expired entry
misses, purges it, and stays a miss. -/
theorem mem_backend_get_lazy_expiry_witness :
    ((mcExpired.get "a" 100).1 = none
     ∧ lookupEntry ((mcExpired.get "a" 100).2).cache "a" = none
     ∧ (((mcExpired.get "a" 100).2).get "a" 100).1 = none) :=
  (mem_backend_get_lazy_expiry mcExpired "a" 100 (by decide)).2
    entExpired (by decide) (by decide)

/-- Witness for `mem_backend_overwrite_in_place_and_bounded`:
overwriting the only key of a full single-slot cache keeps the key
sequence, and the four-op LRU scenario stays within capacity 2. -/
theorem mem_backend_overwrite_in_place_and_bounded_witness :
    ((mcOneA.set "a" 9 none 5).cache.map Prod.fst = ["a"]
     ∧ (applyOps (emptyMC Nat 2) c7ops).cache.length ≤ 2) := by
  constructor
  · have h := (mem_backend_overwrite_in_place_and_bounded.1 Nat
      mcOneA "a" 9 none 5 (mkEntry 1 none 0) (by decide)).1
    rw [h]
    decide
  · exact mem_backend_overwrite_in_place_and_bounded.2 Nat 2 c7ops (by decide)

/-! ## Aggregation lemmas -/

theorem succCount_le_attCount (l : List (Option AgentResult)) :
    (l.filter slotSucceeded).length ≤ (l.filter slotAttempted).length := by
  rw [← List.countP_eq_length_filter, ← List.countP_eq_length_filter]
  refine List.countP_mono_left ?_
  intro r _ hr
  cases r with
  | none => cases hr
  | some a => rfl

theorem any_attempted_iff (l : List (Option AgentResult)) :
    l.any slotAttempted = true ↔ 0 < (l.filter slotAttempted).length := by
  rw [← List.countP_eq_length_filter, List.countP_pos_iff, List.any_eq_true]

theorem status_if_iff (n m : Nat) (hle : n ≤ m) :
    (((if n = 0 then "failed" else if n = m then "completed"
        else "partial") = "completed") ↔ 1 ≤ n ∧ n = m)
  ∧ (((if n = 0 then "failed" else if n = m then "completed"
        else "partial") = "partial") ↔ 1 ≤ n ∧ n < m)
  ∧ (((if n = 0 then "failed" else if n = m then "completed"
        else "partial") = "failed") ↔ n = 0) := by
  by_cases h0 : n = 0
  · rw [if_pos h0]
    exact ⟨⟨fun h => absurd h (by decide), fun hh => absurd hh.1 (by omega)⟩,
      ⟨fun h => absurd h (by decide), fun hh => absurd hh.1 (by omega)⟩,
      ⟨fun _ => h0, fun _ => rfl⟩⟩
  · rw [if_neg h0]
    by_cases h1 : n = m
    · rw [if_pos h1]
      exact ⟨⟨fun _ => ⟨by omega, h1⟩, fun _ => rfl⟩,
        ⟨fun h => absurd h (by decide), fun hh => absurd hh.2 (by omega)⟩,
        ⟨fun h => absurd h (by decide), fun hh => absurd hh h0⟩⟩
    · rw [if_neg h1]
      exact ⟨⟨fun h => absurd h (by decide), fun hh => absurd hh.2 h1⟩,
        ⟨fun _ => ⟨by omega, by omega⟩, fun _ => rfl⟩,
        ⟨fun h => absurd h (by decide), fun hh => absurd hh h0⟩⟩

theorem aggregate_status_eq (url : String) (pd : PageData)
    (c s u d : Option AgentResult) (now : Time) :
    (aggregate_results url pd c s u d now).status =
      if ([c, s, u, d].filter slotSucceeded).length = 0 then "failed"
      else if ([c, s, u, d].filter slotSucceeded).length =
          ([c, s, u, d].filter slotAttempted).length then "completed"
      else "partial" := rfl

theorem aggregate_rate_eq (url : String) (pd : PageData)
    (c s u d : Option AgentResult) (now : Time) :
    (aggregate_results url pd c s u d now).success_rate =
      if [c, s, u, d].any slotAttempted then
        (([c, s, u, d].filter slotSucceeded).length : Rat) /
          (([c, s, u, d].filter slotAttempted).length : Rat)
      else 0 := rfl

theorem aggregate_classification_eq (url : String) (pd : PageData)
    (c s u d : Option AgentResult) (now : Time) :
    (aggregate_results url pd c s u d now).classification = c := rfl

theorem aggregate_design_eq (url : String) (pd : PageData)
    (c s u d : Option AgentResult) (now : Time) :
    (aggregate_results url pd c s u d now).design_advice = d := rfl

theorem aggregate_partial_two_thirds (url : String) (pd : PageData)
    (now : Time) (cls sm ux : AgentResult) (hcs : cls.success = true)
    (hsmf : sm.success = false) (huxs : ux.success = true) :
    (aggregate_results url pd (some cls) (some sm) (some ux)
        none now).status = "partial" ∧
    (aggregate_results url pd (some cls) (some sm) (some ux)
        none now).success_rate = 2 / 3 := by
  have hsuccf : [some cls, some sm, some ux,
      (none : Option AgentResult)].filter slotSucceeded =
      [some cls, some ux] := by
    simp only [List.filter_cons, List.filter_nil, slotSucceeded,
      hcs, hsmf, huxs]
    rfl
  have hattf : [some cls, some sm, some ux,
      (none : Option AgentResult)].filter slotAttempted =
      [some cls, some sm, some ux] := by
    simp only [List.filter_cons, List.filter_nil, slotAttempted,
      Option.isSome]
    rfl
  have hany : [some cls, some sm, some ux,
      (none : Option AgentResult)].any slotAttempted = true := rfl
  constructor
  · rw [aggregate_status_eq, hsuccf, hattf]
    rfl
  · rw [aggregate_rate_eq, if_pos hany, hsuccf, hattf]
    norm_num


/-! ## Claim theorems for aggregation status and success rate -/

/-- **C2** (amended) — for records built by `_aggregate_results`
(full-pipeline and custom runs): `status = "completed"` iff at least
one agent was attempted and every attempted agent succeeded,
`"partial"` iff at least one succeeded and at least one failed, and
`"failed"` iff none succeeded (also when nothing was attempted); quick
runs do not derive `status` — `get_quick_analysis` always stamps the
literal `"completed"` into the record it returns. -/
theorem record_status_trichotomy :
    (∀ (url : String) (pd : PageData) (c s u d : Option AgentResult)
        (now : Time),
       ((aggregate_results url pd c s u d now).status = "completed" ↔
          1 ≤ ([c, s, u, d].filter slotSucceeded).length ∧
          ([c, s, u, d].filter slotSucceeded).length =
            ([c, s, u, d].filter slotAttempted).length)
       ∧ ((aggregate_results url pd c s u d now).status = "partial" ↔
          1 ≤ ([c, s, u, d].filter slotSucceeded).length ∧
          ([c, s, u, d].filter slotSucceeded).length <
            ([c, s, u, d].filter slotAttempted).length)
       ∧ ((aggregate_results url pd c s u d now).status = "failed" ↔
          ([c, s, u, d].filter slotSucceeded).length = 0))
  ∧ (∀ (env : Env) (url : String) (now : Time) (rec : QuickRecord)
        (effs : List Eff),
       get_quick_analysis env url now = (.ok rec, effs) →
       rec.status = "completed") := by
  constructor
  · intro url pd c s u d now
    rw [aggregate_status_eq]
    exact status_if_iff _ _ (succCount_le_attCount _)
  · intro env url now rec effs h
    cases hs : env.scrape url with
    | error e =>
        have hq : get_quick_analysis env url now =
            (.error ("Failed to scrape website: " ++ e),
              [Eff.rateAcquire, Eff.scrapeCall]) := by
          rw [get_quick_analysis, hs]
        rw [hq] at h
        injection h with h1 _
        injection h1
    | ok pd =>
        have hq : get_quick_analysis env url now =
            (.ok { url := url, website_data := pd,
                   classification := toResult (env.classify pd),
                   summary := toResult (env.summarize pd none),
                   status := "completed", timestamp := now,
                   analysis_type := "quick" },
              [Eff.rateAcquire, Eff.scrapeCall, Eff.agentCall "classifier",
               Eff.agentCall "summary"]) := by
          rw [get_quick_analysis, hs]
        rw [hq] at h
        injection h with h1 _
        injection h1 with h1
        rw [← h1]

/-- **C2** counterexample — a quick run in which no attempted agent
succeeded (classifier and summary both raise) still reports
`status = "completed"`, where the claim requires `"failed"`; and a
custom run attempting no agent at all reports `"failed"`, where the
claim's "completed iff every attempted agent succeeded" (vacuously
true) requires `"completed"`. -/
theorem quick_status_hardcoded_cex :
    ((get_quick_analysis envAgentsDown "https://example.com" 5).1.toOption.map
        QuickRecord.status = some "completed")
  ∧ ((get_quick_analysis envAgentsDown "https://example.com" 5).1.toOption.map
        (fun r => r.classification.success || r.summary.success) = some false)
  ∧ ((run_custom_analysis envAgentsDown "https://example.com"
        cfgNone 5).1.toOption.map FullRecord.status = some "failed")
  ∧ ((run_custom_analysis envAgentsDown "https://example.com"
        cfgNone 5).1.toOption.map
        (fun r => r.agents_used) = some 0) :=
  ⟨rfl, rfl, rfl, rfl⟩

/-- Witness for `record_status_trichotomy` at a concrete quick run. -/
theorem record_status_trichotomy_witness :
    ({ url := "https://example.com", website_data := pdX,
       classification := clsLanding, summary := agentOK,
       status := "completed", timestamp := 0,
       analysis_type := "quick" } : QuickRecord).status = "completed" :=
  record_status_trichotomy.2 envLanding "https://example.com" 0 _ _ rfl

/-- **C3** — the aggregated `success_rate` equals successes divided by
attempted agent calls (agents not attempted are excluded from the
denominator) and is 0 when nothing was attempted; concretely, every
full-pipeline run in which classification succeeds with a
non-landing-page type, summary fails and UX-review succeeds (so design
is not attempted) yields `status = "partial"` and
`success_rate = 2/3`. -/
theorem success_rate_formula :
    (∀ (url : String) (pd : PageData) (c s u d : Option AgentResult)
        (now : Time),
       (aggregate_results url pd c s u d now).success_rate =
         if ([c, s, u, d].filter slotAttempted).length = 0 then 0
         else (([c, s, u, d].filter slotSucceeded).length : Rat) /
              (([c, s, u, d].filter slotAttempted).length : Rat))
  ∧ (∀ (env : Env) (st : OrchState) (url : String) (now : Time)
        (pd : PageData) (cls sm ux : AgentResult),
       env.scrape url = .ok pd →
       env.classify pd = .ok cls →
       cls.success = true →
       isLandingGate (some cls) = false →
       env.summarize pd (some cls) = .ok sm →
       sm.success = false →
       env.ux_review pd (some cls) = .ok ux →
       ux.success = true →
       ((analyze_website env st url false now).1.toOption.map
           FullRecord.status = some "partial"
        ∧ (analyze_website env st url false now).1.toOption.map
           FullRecord.success_rate = some (2 / 3))) := by
  constructor
  · intro url pd c s u d now
    rw [aggregate_rate_eq]
    by_cases h : [c, s, u, d].any slotAttempted = true
    · have hpos : 0 < ([c, s, u, d].filter slotAttempted).length :=
        (any_attempted_iff _).1 h
      rw [if_pos h, if_neg (by omega)]
    · have h0 : ([c, s, u, d].filter slotAttempted).length = 0 := by
        rcases Nat.eq_zero_or_pos
            (([c, s, u, d].filter slotAttempted).length) with h0 | hpos
        · exact h0
        · exact absurd ((any_attempted_iff _).2 hpos) h
      rw [if_neg h, if_pos h0]
  · intro env st url now pd cls sm ux hs hc hcs hgate hsm hsmf hux huxs
    have hrun : analyze_website env st url false now =
        analyze_finish url false now
          { st with rate := st.rate.wait_for_slot "default" now }
          (aggregate_results url pd (some cls)
            (some (toResult (env.summarize pd (some cls))))
            (some (toResult (env.ux_review pd (some cls)))) none now)
          [Eff.rateAcquire, Eff.scrapeCall,
            Eff.agentCall "classifier", Eff.agentCall "summary",
            Eff.agentCall "ux_reviewer"] := by
      show analyze_pipeline env url false now st [] = _
      simp only [analyze_pipeline, hs, hc]
      rw [if_neg (by rw [hgate]; exact Bool.false_ne_true)]
      rfl
    rw [hrun, hsm, hux]
    constructor
    · exact congrArg some
        ((aggregate_partial_two_thirds url pd now cls (toResult (.ok sm))
          (toResult (.ok ux)) hcs hsmf huxs).1)
    · exact congrArg some
        ((aggregate_partial_two_thirds url pd now cls (toResult (.ok sm))
          (toResult (.ok ux)) hcs hsmf huxs).2)

/-- Witness for `success_rate_formula` at a concrete run. -/
theorem success_rate_formula_witness :
    ((analyze_website envPartial freshState "https://example.com"
        false 0).1.toOption.map FullRecord.status = some "partial"
     ∧ (analyze_website envPartial freshState "https://example.com"
        false 0).1.toOption.map FullRecord.success_rate = some (2 / 3)) :=
  success_rate_formula.2 envPartial freshState "https://example.com" 0 pdX
    clsBlog agentFail agentOK rfl rfl rfl (by decide) rfl rfl rfl rfl

/-! ## Design-gating lemmas -/

theorem analyze_pipeline_design (env : Env) (url : String) (uc : Bool)
    (now : Time) (st1 : OrchState) (effs0 : List Eff) (rec : FullRecord)
    (st2 : OrchState) (tr : List Eff)
    (h : analyze_pipeline env url uc now st1 effs0 = (.ok rec, st2, tr))
    (hno : Eff.agentCall "design_advisor" ∉ effs0) :
    (Eff.agentCall "design_advisor" ∈ tr ↔
      isLandingGate rec.classification = true)
    ∧ (isLandingGate rec.classification = false →
      rec.design_advice = none) := by
  cases hs : env.scrape url with
  | error e => simp [analyze_pipeline, hs] at h
  | ok pd =>
      cases hc : env.classify pd with
      | error e => simp [analyze_pipeline, hs, hc] at h
      | ok cls =>
          by_cases hg : isLandingGate (some cls) = true
          · cases hd : env.design_advise pd (some cls) with
            | error e => simp [analyze_pipeline, hs, hc, if_pos hg, hd] at h
            | ok da =>
                have hrun : analyze_pipeline env url uc now st1 effs0 =
                    analyze_finish url uc now
                      { st1 with
                          rate := st1.rate.wait_for_slot "default" now }
                      (aggregate_results url pd (some cls)
                        (some (toResult (env.summarize pd (some cls))))
                        (some (toResult (env.ux_review pd (some cls))))
                        (some da) now)
                      (effs0 ++ [Eff.rateAcquire] ++ [Eff.scrapeCall] ++
                        [Eff.agentCall "classifier", Eff.agentCall "summary",
                         Eff.agentCall "ux_reviewer"] ++
                        [Eff.agentCall "design_advisor"]) := by
                  simp only [analyze_pipeline, hs, hc, hd]
                  rw [if_pos hg]
                rw [hrun, analyze_finish] at h
                split at h <;>
                · simp only [Prod.mk.injEq, Except.ok.injEq] at h
                  obtain ⟨h1, -, h3⟩ := h
                  subst h1
                  subst h3
                  rw [aggregate_classification_eq]
                  refine ⟨⟨fun _ => hg, fun _ => by simp⟩, fun hf => ?_⟩
                  rw [hg] at hf
                  cases hf
          · have hgf : isLandingGate (some cls) = false :=
              Bool.eq_false_iff.2 hg
            have hrun : analyze_pipeline env url uc now st1 effs0 =
                analyze_finish url uc now
                  { st1 with rate := st1.rate.wait_for_slot "default" now }
                  (aggregate_results url pd (some cls)
                    (some (toResult (env.summarize pd (some cls))))
                    (some (toResult (env.ux_review pd (some cls))))
                    none now)
                  (effs0 ++ [Eff.rateAcquire] ++ [Eff.scrapeCall] ++
                    [Eff.agentCall "classifier", Eff.agentCall "summary",
                     Eff.agentCall "ux_reviewer"]) := by
              simp only [analyze_pipeline, hs, hc]
              rw [if_neg hg]
            rw [hrun, analyze_finish] at h
            have hfix : Eff.agentCall "design_advisor" ∉
                (effs0 ++ [Eff.rateAcquire] ++ [Eff.scrapeCall] ++
                  [Eff.agentCall "classifier", Eff.agentCall "summary",
                   Eff.agentCall "ux_reviewer"]) := by
              intro hmem
              rcases List.mem_append.1 hmem with h1 | h2
              · rcases List.mem_append.1 h1 with h3 | h4
                · rcases List.mem_append.1 h3 with h5 | h6
                  · exact hno h5
                  · exact absurd h6 (by decide)
                · exact absurd h4 (by decide)
              · exact absurd h2 (by decide)
            split at h <;>
            · simp only [Prod.mk.injEq, Except.ok.injEq] at h
              obtain ⟨h1, -, h3⟩ := h
              subst h1
              subst h3
              rw [aggregate_classification_eq, aggregate_design_eq]
              refine ⟨⟨fun hmem => ?_, fun htrue => absurd htrue hg⟩,
                fun _ => rfl⟩
              first
              | exact absurd hmem hfix
              | (rcases List.mem_append.1 hmem with h1 | h2
                 · exact absurd h1 hfix
                 · exact absurd h2 (by decide))

theorem custom_tail_design (env : Env) (url : String) (cfg : AgentsConfig)
    (now : Time) (pd : PageData) (clsOpt : Option AgentResult)
    (effs0 : List Eff) (rec : FullRecord) (tr : List Eff)
    (h : custom_tail env url cfg now pd clsOpt effs0 = (.ok rec, tr))
    (hno : Eff.agentCall "design_advisor" ∉ effs0) :
    rec.classification = clsOpt
    ∧ (Eff.agentCall "design_advisor" ∈ tr ↔
      (cfg.design_advisor && isLandingGate clsOpt) = true)
    ∧ ((cfg.design_advisor && isLandingGate clsOpt) = false →
      rec.design_advice = none) := by
  by_cases hg : (cfg.design_advisor && isLandingGate clsOpt) = true
  · have hrun : custom_tail env url cfg now pd clsOpt effs0 =
        (Except.ok (aggregate_results url pd clsOpt
          (if cfg.summary then
            some (toResult (env.summarize pd clsOpt)) else none)
          (if cfg.ux_reviewer then
            some (toResult (env.ux_review pd clsOpt)) else none)
          (some (toResult (env.design_advise pd clsOpt))) now),
         effs0 ++ (if cfg.summary then [Eff.agentCall "summary"] else []) ++
           (if cfg.ux_reviewer then [Eff.agentCall "ux_reviewer"] else []) ++
           [Eff.agentCall "design_advisor"]) := by
      simp only [custom_tail]
      rw [if_pos hg]
      rw [if_pos hg]
    rw [hrun] at h
    simp only [Prod.mk.injEq, Except.ok.injEq] at h
    obtain ⟨h1, h2⟩ := h
    subst h1
    subst h2
    rw [aggregate_classification_eq]
    refine ⟨rfl, ⟨fun _ => hg, fun _ => by simp⟩, fun hf => ?_⟩
    rw [hg] at hf
    cases hf
  · have hrun : custom_tail env url cfg now pd clsOpt effs0 =
        (Except.ok (aggregate_results url pd clsOpt
          (if cfg.summary then
            some (toResult (env.summarize pd clsOpt)) else none)
          (if cfg.ux_reviewer then
            some (toResult (env.ux_review pd clsOpt)) else none)
          none now),
         effs0 ++ (if cfg.summary then [Eff.agentCall "summary"] else []) ++
           (if cfg.ux_reviewer then [Eff.agentCall "ux_reviewer"] else []) ++
           []) := by
      simp only [custom_tail]
      rw [if_neg hg]
      rw [if_neg hg]
    rw [hrun] at h
    simp only [Prod.mk.injEq, Except.ok.injEq] at h
    obtain ⟨h1, h2⟩ := h
    subst h1
    subst h2
    rw [aggregate_classification_eq, aggregate_design_eq]
    refine ⟨rfl, ⟨fun hmem => ?_, fun htrue => absurd htrue hg⟩, fun _ => rfl⟩
    exfalso
    rcases List.mem_append.1 hmem with h1 | h2
    · rcases List.mem_append.1 h1 with h3 | h4
      · rcases List.mem_append.1 h3 with h5 | h6
        · exact hno h5
        · cases hbs : cfg.summary with
          | true => rw [hbs] at h6; exact absurd h6 (by decide)
          | false => rw [hbs] at h6; exact absurd h6 (by decide)
      · cases hbu : cfg.ux_reviewer with
        | true => rw [hbu] at h4; exact absurd h4 (by decide)
        | false => rw [hbu] at h4; exact absurd h4 (by decide)
    · exact absurd h2 (by decide)

/-- **C1** (amended) — in a full-pipeline run that produces a record
without being served from the cache, the design-advice agent is called
iff classification succeeded with type `landing_page`, and when the
gate is closed the `design_advice` field is `None` (never a failure);
in a custom run the same holds with the additional conjunct that the
request's `agents_config.design_advisor` flag is set — a custom request
that does not select the design advisor never invokes it even for a
successfully classified landing page. -/
theorem design_gating :
    (∀ (env : Env) (st : OrchState) (url : String) (uc : Bool) (now : Time)
        (rec : FullRecord) (stF : OrchState) (tr : List Eff),
       analyze_website env st url uc now = (.ok rec, stF, tr) →
       Eff.cacheHit ∉ tr →
       ((Eff.agentCall "design_advisor" ∈ tr ↔
           isLandingGate rec.classification = true)
        ∧ (isLandingGate rec.classification = false →
           rec.design_advice = none)))
  ∧ (∀ (env : Env) (url : String) (cfg : AgentsConfig) (now : Time)
        (rec : FullRecord) (tr : List Eff),
       run_custom_analysis env url cfg now = (.ok rec, tr) →
       ((Eff.agentCall "design_advisor" ∈ tr ↔
           (cfg.design_advisor && isLandingGate rec.classification) = true)
        ∧ ((cfg.design_advisor &&
             isLandingGate rec.classification) = false →
           rec.design_advice = none))) := by
  constructor
  · intro env st url uc now rec stF tr h hnohit
    cases uc with
    | false =>
        exact analyze_pipeline_design env url false now st [] rec stF tr h
          (by decide)
    | true =>
        rw [analyze_website, if_pos rfl] at h
        rcases hget : st.cache.get url "full" now with ⟨o, cache1⟩
        rw [hget] at h
        cases o with
        | some r =>
            simp only [Prod.mk.injEq, Except.ok.injEq] at h
            obtain ⟨-, -, h3⟩ := h
            subst h3
            exact absurd (List.mem_singleton.2 rfl) hnohit
        | none =>
            exact analyze_pipeline_design env url true now
              { st with cache := cache1 } [Eff.cacheMiss] rec stF tr h
              (by decide)
  · intro env url cfg now rec tr h
    cases hs : env.scrape url with
    | error e => simp [run_custom_analysis, hs] at h
    | ok pd =>
        cases hcl : cfg.classifier with
        | true =>
            cases hc : env.classify pd with
            | error e => simp [run_custom_analysis, hs, hcl, hc] at h
            | ok cls =>
                have hrun : run_custom_analysis env url cfg now =
                    custom_tail env url cfg now pd (some cls)
                      [Eff.scrapeCall, Eff.agentCall "classifier"] := by
                  simp only [run_custom_analysis, hs, hc]
                  rw [if_pos hcl]
                rw [hrun] at h
                obtain ⟨hcls, hiff, himp⟩ :=
                  custom_tail_design env url cfg now pd (some cls)
                    [Eff.scrapeCall, Eff.agentCall "classifier"] rec tr h
                    (by decide)
                rw [hcls]
                exact ⟨hiff, himp⟩
        | false =>
            have hrun : run_custom_analysis env url cfg now =
                custom_tail env url cfg now pd none [Eff.scrapeCall] := by
              simp only [run_custom_analysis, hs]
              rw [if_neg (by rw [hcl]; exact Bool.false_ne_true)]
            rw [hrun] at h
            obtain ⟨hcls, hiff, himp⟩ :=
              custom_tail_design env url cfg now pd none
                [Eff.scrapeCall] rec tr h (by decide)
            rw [hcls]
            exact ⟨hiff, himp⟩

/-- **C1** counterexample — a custom run that selects the classifier
but switches the design advisor off, against a site classified as a
successful `landing_page`: the classification gate of the claim holds,
yet no design-advice call appears in the trace and the field is `None`.
The claim's "invoked iff classification succeeded with type
landing_page" therefore fails in its forward direction. -/
theorem design_gating_cex :
    ((run_custom_analysis envLanding "https://example.com"
        cfgNoDesign 0).1.toOption.map
        (fun r => isLandingGate r.classification) = some true)
  ∧ (Eff.agentCall "design_advisor" ∉
      (run_custom_analysis envLanding "https://example.com"
        cfgNoDesign 0).2)
  ∧ ((run_custom_analysis envLanding "https://example.com"
        cfgNoDesign 0).1.toOption.map
        (fun r => r.design_advice) = some none) := by
  refine ⟨rfl, ?_, rfl⟩
  decide

/-- Witness for `design_gating`: a full run over a blog-classified site
records no design-advice call. -/
theorem design_gating_witness :
    Eff.agentCall "design_advisor" ∉
      (analyze_website envBlog freshState "https://example.com"
        false 0).2.2 := by
  intro hmem
  have h := (design_gating.1 envBlog freshState "https://example.com"
      false 0 _ _ _ rfl (by decide)).1.1 hmem
  exact absurd h (by decide)

/-! ## Orchestrator-cache lemmas -/

theorem orchCache_get_some {α : Type} (c : OrchCache α)
    (url aty : String) (now : Time) (v : α) (c2 : OrchCache α)
    (h : OrchCache.get c url aty now = (some v, c2)) :
    c2 = c ∧ ∃ t, dictFind c.cache (genKey url aty) = some (v, t) ∧
      now - t < c.ttl := by
  cases hf : dictFind c.cache (genKey url aty) with
  | none =>
      have hq : OrchCache.get c url aty now = (none, c) := by
        simp only [OrchCache.get]
        rw [hf]
      rw [hq] at h
      simp at h
  | some p =>
      by_cases ht : now - p.2 < c.ttl
      · have hq : OrchCache.get c url aty now = (some p.1, c) := by
          simp only [OrchCache.get]
          rw [hf]
          exact if_pos ht
        rw [hq] at h
        simp only [Prod.mk.injEq, Option.some.injEq] at h
        obtain ⟨h1, h2⟩ := h
        subst h1
        exact ⟨h2.symm, p.2, rfl, ht⟩
      · have hq : OrchCache.get c url aty now =
            (none,
              { c with cache := dictErase c.cache (genKey url aty) }) := by
          simp only [OrchCache.get]
          rw [hf]
          exact if_neg ht
        rw [hq] at h
        simp at h

theorem orchCache_get_snd_sublist {α : Type} (c : OrchCache α)
    (url aty : String) (now : Time) :
    ((OrchCache.get c url aty now).2).cache.Sublist c.cache ∧
      ((OrchCache.get c url aty now).2).ttl = c.ttl := by
  cases hf : dictFind c.cache (genKey url aty) with
  | none =>
      have hq : OrchCache.get c url aty now = (none, c) := by
        simp only [OrchCache.get]
        rw [hf]
      rw [hq]
      exact ⟨List.Sublist.refl _, rfl⟩
  | some p =>
      by_cases ht : now - p.2 < c.ttl
      · have hq : OrchCache.get c url aty now = (some p.1, c) := by
          simp only [OrchCache.get]
          rw [hf]
          exact if_pos ht
        rw [hq]
        exact ⟨List.Sublist.refl _, rfl⟩
      · have hq : OrchCache.get c url aty now =
            (none,
              { c with cache := dictErase c.cache (genKey url aty) }) := by
          simp only [OrchCache.get]
          rw [hf]
          exact if_neg ht
        rw [hq]
        exact ⟨List.eraseP_sublist _, rfl⟩

theorem analyze_pipeline_ok_cached (env : Env) (url : String) (now : Time)
    (st1 : OrchState) (effs0 : List Eff) (rec : FullRecord)
    (stF : OrchState) (tr : List Eff)
    (h : analyze_pipeline env url true now st1 effs0 = (.ok rec, stF, tr)) :
    dictFind stF.cache.cache (genKey url "full") = some (rec, now) ∧
      stF.cache.ttl = st1.cache.ttl := by
  cases hs : env.scrape url with
  | error e => simp [analyze_pipeline, hs] at h
  | ok pd =>
      cases hc : env.classify pd with
      | error e => simp [analyze_pipeline, hs, hc] at h
      | ok cls =>
          by_cases hg : isLandingGate (some cls) = true
          · cases hd : env.design_advise pd (some cls) with
            | error e => simp [analyze_pipeline, hs, hc, if_pos hg, hd] at h
            | ok da =>
                have hrun : analyze_pipeline env url true now st1 effs0 =
                    analyze_finish url true now
                      { st1 with
                          rate := st1.rate.wait_for_slot "default" now }
                      (aggregate_results url pd (some cls)
                        (some (toResult (env.summarize pd (some cls))))
                        (some (toResult (env.ux_review pd (some cls))))
                        (some da) now)
                      (effs0 ++ [Eff.rateAcquire] ++ [Eff.scrapeCall] ++
                        [Eff.agentCall "classifier", Eff.agentCall "summary",
                         Eff.agentCall "ux_reviewer"] ++
                        [Eff.agentCall "design_advisor"]) := by
                  simp only [analyze_pipeline, hs, hc, hd]
                  rw [if_pos hg]
                rw [hrun, analyze_finish, if_pos rfl] at h
                simp only [Prod.mk.injEq, Except.ok.injEq] at h
                obtain ⟨h1, h2, -⟩ := h
                subst h1
                rw [← h2]
                exact ⟨dictFind_insert_self _ _ _, rfl⟩
          · have hrun : analyze_pipeline env url true now st1 effs0 =
                analyze_finish url true now
                  { st1 with rate := st1.rate.wait_for_slot "default" now }
                  (aggregate_results url pd (some cls)
                    (some (toResult (env.summarize pd (some cls))))
                    (some (toResult (env.ux_review pd (some cls))))
                    none now)
                  (effs0 ++ [Eff.rateAcquire] ++ [Eff.scrapeCall] ++
                    [Eff.agentCall "classifier", Eff.agentCall "summary",
                     Eff.agentCall "ux_reviewer"]) := by
              simp only [analyze_pipeline, hs, hc]
              rw [if_neg hg]
            rw [hrun, analyze_finish, if_pos rfl] at h
            simp only [Prod.mk.injEq, Except.ok.injEq] at h
            obtain ⟨h1, h2, -⟩ := h
            subst h1
            rw [← h2]
            exact ⟨dictFind_insert_self _ _ _, rfl⟩

theorem analyze_ok_cache_entry (env : Env) (st : OrchState) (url : String)
    (now : Time) (rec : FullRecord) (stF : OrchState) (tr : List Eff)
    (h : analyze_website env st url true now = (.ok rec, stF, tr)) :
    ∃ t, dictFind stF.cache.cache (genKey url "full") = some (rec, t) := by
  rw [analyze_website, if_pos rfl] at h
  rcases hget : st.cache.get url "full" now with ⟨o, cache1⟩
  rw [hget] at h
  cases o with
  | some r =>
      simp only [Prod.mk.injEq, Except.ok.injEq] at h
      obtain ⟨h1, h2, -⟩ := h
      subst h1
      obtain ⟨hc2, t, hfind, -⟩ := orchCache_get_some st.cache url "full"
        now r cache1 hget
      rw [← h2]
      refine ⟨t, ?_⟩
      show dictFind cache1.cache (genKey url "full") = some (r, t)
      rw [hc2]
      exact hfind
  | none =>
      exact ⟨now, (analyze_pipeline_ok_cached env url now
        { st with cache := cache1 } [Eff.cacheMiss] rec stF tr h).1⟩

/-- **C4** — after a cached full run produced a record, a second cached
call for the same url whose lookup happens before the stored entry's
TTL runs out is answered entirely from the cache: it returns the
identical record, leaves the state untouched, and its effect trace is
exactly `[cacheHit]` — no scrape call, no agent call, and no
rate-limiter acquisition. -/
theorem full_cache_idempotent :
    ∀ (env : Env) (st : OrchState) (url : String) (now1 now2 : Time)
      (rec : FullRecord) (st1 : OrchState) (tr1 : List Eff),
    analyze_website env st url true now1 = (.ok rec, st1, tr1) →
    (∀ (v : FullRecord) (t : Time),
      dictFind st1.cache.cache (genKey url "full") = some (v, t) →
      now2 - t < st1.cache.ttl) →
    analyze_website env st1 url true now2 =
      (.ok rec, st1, [Eff.cacheHit]) := by
  intro env st url now1 now2 rec st1 tr1 h hfresh
  obtain ⟨t, hfind⟩ := analyze_ok_cache_entry env st url now1 rec st1 tr1 h
  have ht : now2 - t < st1.cache.ttl := hfresh rec t hfind
  have hq : st1.cache.get url "full" now2 = (some rec, st1.cache) := by
    simp only [OrchCache.get]
    rw [hfind]
    exact if_pos ht
  rw [analyze_website, if_pos rfl, hq]

/-- Witness for `full_cache_idempotent`: the second of two cached calls
over a fixed environment performs only the cache lookup. -/
theorem full_cache_idempotent_witness :
    (analyze_website envBlog
      (analyze_website envBlog freshState "https://example.com"
        true 0).2.1
      "https://example.com" true 10).2.2 = [Eff.cacheHit] := by
  have h := full_cache_idempotent envBlog freshState "https://example.com"
    0 10 _ _ _ rfl ?fresh
  case fresh =>
    intro v t hvt
    have h2 := congrArg (Option.map Prod.snd) hvt.symm
    have h3 : some t = (some (0 : Time) : Option Time) := h2.trans (by rfl)
    injection h3 with h3
    rw [h3]
    decide
  exact congrArg (fun x => x.2.2) h

/-- **C5** — when the scraper terminally reports an error and the run
is not served from the cache, `analyze_website` returns the top-level
scrape error: no agent is called, no record is stored, and the cache
contents can only have shrunk (by the lookup's lazy purge), never
grown. -/
theorem scrape_failure_fatal :
    ∀ (env : Env) (st : OrchState) (url : String) (uc : Bool) (now : Time)
      (e : String),
    env.scrape url = .error e →
    Eff.cacheHit ∉ (analyze_website env st url uc now).2.2 →
    ((analyze_website env st url uc now).1 =
        .error ("Failed to scrape website: " ++ e)
     ∧ (∀ n, Eff.agentCall n ∉ (analyze_website env st url uc now).2.2)
     ∧ Eff.cacheStore ∉ (analyze_website env st url uc now).2.2
     ∧ ((analyze_website env st url uc now).2.1).cache.cache.Sublist
        st.cache.cache) := by
  intro env st url uc now e hs hnohit
  have hpipe : ∀ (st1 : OrchState) (effs0 : List Eff),
      analyze_pipeline env url uc now st1 effs0 =
        (.error ("Failed to scrape website: " ++ e),
         { st1 with rate := st1.rate.wait_for_slot "default" now },
         effs0 ++ [Eff.rateAcquire] ++ [Eff.scrapeCall]) := by
    intro st1 effs0
    simp only [analyze_pipeline, hs]
  cases uc with
  | false =>
      have hw : analyze_website env st url false now =
          (.error ("Failed to scrape website: " ++ e),
           { st with rate := st.rate.wait_for_slot "default" now },
           [] ++ [Eff.rateAcquire] ++ [Eff.scrapeCall]) := hpipe st []
      rw [hw]
      refine ⟨rfl, ?_, ?_, List.Sublist.refl _⟩
      · intro n hmem
        simp at hmem
      · intro hmem
        simp at hmem
  | true =>
      rcases hget : st.cache.get url "full" now with ⟨o, cache1⟩
      cases o with
      | some r =>
          have hw : analyze_website env st url true now =
              (.ok r, { st with cache := cache1 }, [Eff.cacheHit]) := by
            rw [analyze_website, if_pos rfl, hget]
          rw [hw] at hnohit
          exact absurd (List.mem_singleton.2 rfl) hnohit
      | none =>
          have hw : analyze_website env st url true now =
              (.error ("Failed to scrape website: " ++ e),
               { cache := cache1,
                 rate := st.rate.wait_for_slot "default" now },
               [Eff.cacheMiss] ++ [Eff.rateAcquire] ++ [Eff.scrapeCall]) := by
            rw [analyze_website, if_pos rfl, hget]
            exact hpipe { st with cache := cache1 } [Eff.cacheMiss]
          rw [hw]
          have hsub : cache1.cache.Sublist st.cache.cache := by
            have h2 := (orchCache_get_snd_sublist st.cache url "full" now).1
            rw [hget] at h2
            exact h2
          refine ⟨rfl, ?_, ?_, hsub⟩
          · intro n hmem
            simp at hmem
          · intro hmem
            simp at hmem

/-- Witness for `scrape_failure_fatal` at a concrete failing
environment. -/
theorem scrape_failure_fatal_witness :
    ((analyze_website envScrapeFail freshState "https://example.com"
        true 0).1 = .error "Failed to scrape website: timeout"
     ∧ (analyze_website envScrapeFail freshState "https://example.com"
        true 0).2.1.cache.cache.Sublist freshState.cache.cache) := by
  have h := scrape_failure_fatal envScrapeFail freshState
    "https://example.com" true 0 "timeout" rfl (by decide)
  exact ⟨h.1, h.2.2.2⟩

/-! ## Stage-ordering lemmas -/

theorem mem_interleave (s : List Bool) (xs ys : List PEv) (a : PEv) :
    a ∈ interleave s xs ys ↔ a ∈ xs ∨ a ∈ ys := by
  induction s generalizing xs ys with
  | nil => simp [interleave]
  | cons b bs ih =>
      cases xs with
      | nil => simp [interleave]
      | cons x xs2 =>
          cases ys with
          | nil => simp [interleave]
          | cons y ys2 =>
              cases b with
              | true =>
                  have hred : interleave (true :: bs) (x :: xs2)
                      (y :: ys2) = x :: interleave bs xs2 (y :: ys2) := rfl
                  rw [hred]
                  simp only [List.mem_cons, ih]
                  tauto
              | false =>
                  have hred : interleave (false :: bs) (x :: xs2)
                      (y :: ys2) = y :: interleave bs (x :: xs2) ys2 := rfl
                  rw [hred]
                  simp only [List.mem_cons, ih]
                  tauto

theorem length_interleave (s : List Bool) (xs ys : List PEv) :
    (interleave s xs ys).length = xs.length + ys.length := by
  induction s generalizing xs ys with
  | nil => simp [interleave]
  | cons b bs ih =>
      cases xs with
      | nil => simp [interleave]
      | cons x xs2 =>
          cases ys with
          | nil => simp [interleave]
          | cons y ys2 =>
              cases b with
              | true =>
                  have hred : interleave (true :: bs) (x :: xs2)
                      (y :: ys2) = x :: interleave bs xs2 (y :: ys2) := rfl
                  rw [hred]
                  simp only [List.length_cons, ih]
                  omega
              | false =>
                  have hred : interleave (false :: bs) (x :: xs2)
                      (y :: ys2) = y :: interleave bs (x :: xs2) ys2 := rfl
                  rw [hred]
                  simp only [List.length_cons, ih]
                  omega

theorem get_cons_cons_add_two (a b : PEv) (l : List PEv) (k : Nat) :
    (a :: b :: l).get? (k + 2) = l.get? k := rfl

theorem interleave_pos (gate : Bool) (sched : List Bool) (e : PEv)
    (he : e ∈ interleave sched [PEv.sumStart, PEv.sumDone]
      [PEv.uxStart, PEv.uxDone]) :
    ∃ k, (fullPipelineEvents gate sched).get? (k + 2) = some e ∧ k < 4 := by
  obtain ⟨k, hk⟩ := List.get?_of_mem he
  have hlt : k < (interleave sched [PEv.sumStart, PEv.sumDone]
      [PEv.uxStart, PEv.uxDone]).length := by
    rcases List.get?_eq_some.1 hk with ⟨h, -⟩
    exact h
  have hlen : (interleave sched [PEv.sumStart, PEv.sumDone]
      [PEv.uxStart, PEv.uxDone]).length = 4 :=
    length_interleave sched _ _
  refine ⟨k, ?_, by omega⟩
  have hsplit : fullPipelineEvents gate sched =
      PEv.clsStart :: PEv.clsDone ::
        (interleave sched [PEv.sumStart, PEv.sumDone]
          [PEv.uxStart, PEv.uxDone] ++
         (if gate then [PEv.desStart, PEv.desDone] else [])) := rfl
  rw [hsplit, get_cons_cons_add_two, List.get?_append (by omega)]
  exact hk

theorem fullPipelineEvents_desStart (sched : List Bool) :
    (fullPipelineEvents true sched).get? 6 = some PEv.desStart := by
  have hlen : (interleave sched [PEv.sumStart, PEv.sumDone]
      [PEv.uxStart, PEv.uxDone]).length = 4 :=
    length_interleave sched _ _
  have hsplit : fullPipelineEvents true sched =
      PEv.clsStart :: PEv.clsDone ::
        (interleave sched [PEv.sumStart, PEv.sumDone]
          [PEv.uxStart, PEv.uxDone] ++ [PEv.desStart, PEv.desDone]) := rfl
  have h6 : (6 : Nat) = 4 + 2 := rfl
  rw [hsplit, h6, get_cons_cons_add_two,
    List.get?_append_right (by omega), hlen]
  rfl

/-- **C9** — in the event semantics of the full pipeline, for every
scheduler interleaving of the gathered summary/UX-review pair:
classification completes before summary starts and before UX-review
starts; when the design stage runs (landing-page gate open), it starts
only after both summary and UX-review have completed; and summary and
UX-review themselves have no ordering relationship — there is a
schedule on which summary completes before UX-review starts, and one
with the reverse order. -/
theorem pipeline_stage_ordering :
    ∀ (gate : Bool) (sched : List Bool),
      precedes PEv.clsDone PEv.sumStart (fullPipelineEvents gate sched)
    ∧ precedes PEv.clsDone PEv.uxStart (fullPipelineEvents gate sched)
    ∧ precedes PEv.sumDone PEv.desStart (fullPipelineEvents true sched)
    ∧ precedes PEv.uxDone PEv.desStart (fullPipelineEvents true sched)
    ∧ (∃ s1 : List Bool,
        precedes PEv.sumDone PEv.uxStart (fullPipelineEvents gate s1))
    ∧ (∃ s2 : List Bool,
        precedes PEv.uxDone PEv.sumStart (fullPipelineEvents gate s2)) := by
  intro gate sched
  have hmemS : PEv.sumStart ∈ interleave sched
      [PEv.sumStart, PEv.sumDone] [PEv.uxStart, PEv.uxDone] :=
    mem_interleave sched _ _ _ |>.2 (Or.inl (by simp))
  have hmemU : PEv.uxStart ∈ interleave sched
      [PEv.sumStart, PEv.sumDone] [PEv.uxStart, PEv.uxDone] :=
    mem_interleave sched _ _ _ |>.2 (Or.inr (by simp))
  have hmemSD : PEv.sumDone ∈ interleave sched
      [PEv.sumStart, PEv.sumDone] [PEv.uxStart, PEv.uxDone] :=
    mem_interleave sched _ _ _ |>.2 (Or.inl (by simp))
  have hmemUD : PEv.uxDone ∈ interleave sched
      [PEv.sumStart, PEv.sumDone] [PEv.uxStart, PEv.uxDone] :=
    mem_interleave sched _ _ _ |>.2 (Or.inr (by simp))
  obtain ⟨kS, hkS, -⟩ := interleave_pos gate sched PEv.sumStart hmemS
  obtain ⟨kU, hkU, -⟩ := interleave_pos gate sched PEv.uxStart hmemU
  obtain ⟨kSD, hkSD, hkSDlt⟩ :=
    interleave_pos true sched PEv.sumDone hmemSD
  obtain ⟨kUD, hkUD, hkUDlt⟩ :=
    interleave_pos true sched PEv.uxDone hmemUD
  refine ⟨⟨1, kS + 2, by omega, rfl, hkS⟩,
    ⟨1, kU + 2, by omega, rfl, hkU⟩,
    ⟨kSD + 2, 6, by omega, hkSD, fullPipelineEvents_desStart sched⟩,
    ⟨kUD + 2, 6, by omega, hkUD, fullPipelineEvents_desStart sched⟩,
    ⟨[true, true], 3, 4, by omega, rfl, rfl⟩,
    ⟨[false, false], 3, 4, by omega, rfl, rfl⟩⟩

end MultiAgent
